import Mathlib

set_option maxRecDepth 10000

/-!
Shallow embedding of the pngme chunk codec (src/chunk_type.rs, src/chunk.rs).
Bytes are modelled as `Nat` (with `% 256` where the Rust `u8`/`u32` types
truncate), byte buffers as `List Nat`, and fallible Rust functions as
`Except`/`Option` values.  The distinct `return Err(())` sites of the Rust
code are modelled as distinct error variants, following the spec's names.
-/

namespace Pngme

/-- From `is_valid_byte` in src/chunk_type.rs: a tag byte must be an ASCII
letter, `65 ≤ b ≤ 90` or `97 ≤ b ≤ 122`. -/
def is_valid_byte (b : Nat) : Bool :=
  (65 ≤ b && b ≤ 90) || (97 ≤ b && b ≤ 122)

/-- The two rejection sites of `ChunkType::from_slice` (the Rust error type
collapses both to `()`; the spec names them `WrongLength` / `InvalidByte`). -/
inductive ValidationError where
  | wrongLength
  | invalidByte
deriving DecidableEq, Repr

/-- `ChunkType` from src/chunk_type.rs: a wrapper around the tag bytes. -/
structure ChunkType where
  data : List Nat
deriving DecidableEq, Repr

/-- `ChunkType::from_slice`: reject unless exactly 4 bytes, reject on any
byte failing `is_valid_byte`, otherwise wrap the bytes. -/
def ChunkType.from_slice (data : List Nat) : Except ValidationError ChunkType :=
  if data.length ≠ 4 then .error .wrongLength
  else if data.all is_valid_byte then .ok ⟨data⟩
  else .error .invalidByte

/-- `TryFrom<[u8; 4]> for ChunkType`: delegates to `from_slice`. -/
def ChunkType.try_from_bytes (value : List Nat) : Except ValidationError ChunkType :=
  ChunkType.from_slice value

/-- `FromStr for ChunkType`: delegates to `from_slice` on the string's bytes. -/
def ChunkType.from_str (s : List Nat) : Except ValidationError ChunkType :=
  ChunkType.from_slice s

/-- `ChunkType::bytes`: a copy of the 4 stored bytes. -/
def ChunkType.bytes (t : ChunkType) : List Nat := t.data

/-- Rust `u8::is_ascii_uppercase`. -/
def is_ascii_uppercase (b : Nat) : Bool := 65 ≤ b && b ≤ 90

/-- Rust `u8::is_ascii_lowercase`. -/
def is_ascii_lowercase (b : Nat) : Bool := 97 ≤ b && b ≤ 122

/-- `ChunkType::is_valid`: byte 2 is uppercase. -/
def ChunkType.is_valid (t : ChunkType) : Bool := is_ascii_uppercase (t.data.getD 2 0)

/-- `ChunkType::is_critical`: byte 0 is uppercase. -/
def ChunkType.is_critical (t : ChunkType) : Bool := is_ascii_uppercase (t.data.getD 0 0)

/-- `ChunkType::is_public`: byte 1 is uppercase. -/
def ChunkType.is_public (t : ChunkType) : Bool := is_ascii_uppercase (t.data.getD 1 0)

/-- `ChunkType::is_reserved_bit_valid`: byte 2 is uppercase. -/
def ChunkType.is_reserved_bit_valid (t : ChunkType) : Bool :=
  is_ascii_uppercase (t.data.getD 2 0)

/-- `ChunkType::is_safe_to_copy`: byte 3 is lowercase. -/
def ChunkType.is_safe_to_copy (t : ChunkType) : Bool :=
  is_ascii_lowercase (t.data.getD 3 0)

/-- One bit-step of the reflected CRC-32: shift right, conditionally xor the
reflected polynomial `0xEDB88320` (the reflection of `0x04C11DB7`). -/
def crc32_step (crc : Nat) : Nat :=
  if crc % 2 = 1 then Nat.xor (crc / 2) 0xEDB88320 else crc / 2

/-- Iterate `crc32_step`. -/
def crc32_rounds : Nat → Nat → Nat
  | 0, crc => crc
  | n + 1, crc => crc32_rounds n (crc32_step crc)

/-- Feed one byte into the CRC state (8 bit-steps after xoring the byte in). -/
def crc32_update (crc b : Nat) : Nat :=
  crc32_rounds 8 (Nat.xor crc (b % 256))

/-- Modelled from the spec: the `crc` crate's `CRC_32_ISO_HDLC` algorithm used
by `Chunk::new` (the crate is an external dependency; its parameters are
restated by `CRC_32_ALGO` in src/chunk.rs): polynomial `0x04C11DB7` reflected,
initial value `0xFFFFFFFF`, `refin = refout = true`, final xor `0xFFFFFFFF`. -/
def crc32 (data : List Nat) : Nat :=
  Nat.xor (data.foldl crc32_update 0xFFFFFFFF) 0xFFFFFFFF

/-- The three rejection sites of `Chunk::try_from` (the Rust error type is
`()`; the spec names them `Truncated` / `InvalidTag` / `ChecksumMismatch`). -/
inductive FormatError where
  | truncated
  | invalidTag
  | checksumMismatch
deriving DecidableEq, Repr

/-- `Chunk` from src/chunk.rs. -/
structure Chunk where
  typ : ChunkType
  data : List Nat
  crc : Nat
deriving DecidableEq, Repr

/-- `Chunk::new`: stores the tag and payload and computes the checksum over
`chunk_type.bytes() ++ data`. -/
def Chunk.new (chunk_type : ChunkType) (data : List Nat) : Chunk :=
  { typ := chunk_type, data := data, crc := crc32 (chunk_type.bytes ++ data) }

/-- Rust `u32::from_be_bytes` on a 4-byte buffer. -/
def u32_from_be_bytes (l : List Nat) : Nat :=
  l.foldl (fun acc b => acc * 256 + b % 256) 0

/-- Rust `u32::to_be_bytes`. -/
def u32_to_be_bytes (n : Nat) : List Nat :=
  [n / 2 ^ 24 % 256, n / 2 ^ 16 % 256, n / 2 ^ 8 % 256, n % 256]

/-- Outcome of `Chunk::try_from`: success, a `return Err` site, or a panic
(the `copy_from_slice` into the 4-byte checksum array aborts when its source
slice is not exactly 4 bytes long). -/
inductive ParseResult where
  | ok (c : Chunk)
  | err (e : FormatError)
  | panic
deriving DecidableEq, Repr

/-- `Chunk::try_from` (`TryFrom<&[u8]> for Chunk`), line for line:
length check, big-endian length field, remaining-length check, tag
extraction and validation, payload extraction, checksum copy (panics unless
exactly 4 bytes remain) and comparison. -/
def Chunk.try_from (value : List Nat) : ParseResult :=
  if value.length < 4 then .err .truncated
  else
    let len := u32_from_be_bytes (value.take 4)
    let remain := value.drop 4
    if remain.length < len + 8 then .err .truncated
    else
      let typ_bytes := remain.take 4
      let remain2 := remain.drop 4
      let data := remain2.take len
      let remain3 := remain2.drop len
      match ChunkType.from_slice typ_bytes with
      | .error _ => .err .invalidTag
      | .ok typ =>
        let chunk := Chunk.new typ data
        if remain3.length ≠ 4 then .panic
        else if chunk.crc ≠ u32_from_be_bytes remain3 then .err .checksumMismatch
        else .ok chunk

/-- `Chunk::length`: `self.data.len() as u32`. -/
def Chunk.length (c : Chunk) : Nat := c.data.length % 2 ^ 32

/-- `Chunk::chunk_type`. -/
def Chunk.chunk_type (c : Chunk) : ChunkType := c.typ

/-- `Chunk::as_bytes`: a copy of the payload. -/
def Chunk.as_bytes (c : Chunk) : List Nat := c.data

/-- Modelled from the spec: `serialize()` is described by the spec
("reproduces layout `length(4B,BE) ++ tag(4B) ++ payload ++ checksum(4B,BE)`")
but absent from src/ (only the tests build this layout by hand). -/
def Chunk.serialize (c : Chunk) : List Nat :=
  u32_to_be_bytes c.length ++ c.typ.bytes ++ c.data ++ u32_to_be_bytes c.crc

/-- UTF-8 continuation byte, `0x80..0xBF`. -/
def is_cont (b : Nat) : Bool := 128 ≤ b && b ≤ 191

/-- Validity test of the first continuation byte of a multi-byte UTF-8
sequence, which depends on the lead byte (excluding overlong encodings,
surrogates and code points above `0x10FFFF`). -/
def utf8_first_cont_ok (b b1 : Nat) : Bool :=
  if b = 0xE0 then 0xA0 ≤ b1 && b1 ≤ 0xBF
  else if b = 0xED then 0x80 ≤ b1 && b1 ≤ 0x9F
  else if b = 0xF0 then 0x90 ≤ b1 && b1 ≤ 0xBF
  else if b = 0xF4 then 0x80 ≤ b1 && b1 ≤ 0x8F
  else is_cont b1

/-- Byte-at-a-time UTF-8 validating decoder. The extra arguments are the
decoder state: the number of continuation bytes still expected, the partial
code point accumulated so far, and the admissible range for the next
continuation byte (which encodes the overlong, surrogate and `> 0x10FFFF`
exclusions after an `0xE0`/`0xED`/`0xF0`/`0xF4` lead byte). -/
def utf8_run : List Nat → Nat → Nat → Nat → Nat → Option (List Nat)
  | [], 0, _, _, _ => some []
  | [], _ + 1, _, _, _ => none
  | b :: rest, 0, _, _, _ =>
    if b ≤ 0x7F then (utf8_run rest 0 0 0 0).map (fun s => b :: s)
    else if b < 0xC2 then none
    else if b ≤ 0xDF then utf8_run rest 1 (b - 0xC0) 0x80 0xBF
    else if b = 0xE0 then utf8_run rest 2 (b - 0xE0) 0xA0 0xBF
    else if b = 0xED then utf8_run rest 2 (b - 0xE0) 0x80 0x9F
    else if b ≤ 0xEF then utf8_run rest 2 (b - 0xE0) 0x80 0xBF
    else if b = 0xF0 then utf8_run rest 3 (b - 0xF0) 0x90 0xBF
    else if b = 0xF4 then utf8_run rest 3 (b - 0xF0) 0x80 0x8F
    else if b ≤ 0xF4 then utf8_run rest 3 (b - 0xF0) 0x80 0xBF
    else none
  | b :: rest, 1, acc, lo, hi =>
    if lo ≤ b && b ≤ hi then
      (utf8_run rest 0 0 0 0).map (fun s => (acc * 64 + (b - 0x80)) :: s)
    else none
  | b :: rest, n + 2, acc, lo, hi =>
    if lo ≤ b && b ≤ hi then utf8_run rest (n + 1) (acc * 64 + (b - 0x80)) 0x80 0xBF
    else none

/-- Modelled from the spec: strict UTF-8 validation as performed by Rust's
`String::from_utf8` (standard library, outside this repository), used by
`Display for ChunkType`; returns the decoded code points, or `none` if the
input is not valid UTF-8. -/
def utf8_decode (l : List Nat) : Option (List Nat) := utf8_run l 0 0 0 0

/-- Modelled from the spec: lossy UTF-8 decoding as performed by Rust's
`String::from_utf8_lossy` (standard library, outside this repository), used
by `Chunk::data_as_string`; total, replacing each maximal invalid subpart
with the placeholder `U+FFFD`. -/
def utf8_lossy : List Nat → List Nat
  | [] => []
  | b :: rest =>
    if b ≤ 0x7F then b :: utf8_lossy rest
    else if b < 0xC2 then 0xFFFD :: utf8_lossy rest
    else if b ≤ 0xDF then
      match rest with
      | b1 :: rest2 =>
        if is_cont b1 then ((b - 0xC0) * 64 + (b1 - 0x80)) :: utf8_lossy rest2
        else 0xFFFD :: utf8_lossy (b1 :: rest2)
      | [] => [0xFFFD]
    else if b ≤ 0xEF then
      match rest with
      | b1 :: b2 :: rest3 =>
        if utf8_first_cont_ok b b1 then
          if is_cont b2 then
            ((b - 0xE0) * 4096 + (b1 - 0x80) * 64 + (b2 - 0x80)) :: utf8_lossy rest3
          else 0xFFFD :: utf8_lossy (b2 :: rest3)
        else 0xFFFD :: utf8_lossy (b1 :: b2 :: rest3)
      | [b1] => if utf8_first_cont_ok b b1 then [0xFFFD] else 0xFFFD :: utf8_lossy [b1]
      | [] => [0xFFFD]
    else if b ≤ 0xF4 then
      match rest with
      | b1 :: b2 :: b3 :: rest4 =>
        if utf8_first_cont_ok b b1 then
          if is_cont b2 then
            if is_cont b3 then
              ((b - 0xF0) * 262144 + (b1 - 0x80) * 4096 + (b2 - 0x80) * 64 + (b3 - 0x80)) ::
                utf8_lossy rest4
            else 0xFFFD :: utf8_lossy (b3 :: rest4)
          else 0xFFFD :: utf8_lossy (b2 :: b3 :: rest4)
        else 0xFFFD :: utf8_lossy (b1 :: b2 :: b3 :: rest4)
      | [b1, b2] =>
        if utf8_first_cont_ok b b1 then
          if is_cont b2 then [0xFFFD] else 0xFFFD :: utf8_lossy [b2]
        else 0xFFFD :: utf8_lossy [b1, b2]
      | [b1] => if utf8_first_cont_ok b b1 then [0xFFFD] else 0xFFFD :: utf8_lossy [b1]
      | [] => [0xFFFD]
    else 0xFFFD :: utf8_lossy rest

/-- `Chunk::data_as_string`: always `Ok`, with lossy UTF-8 decoding of the
payload. -/
def Chunk.data_as_string (c : Chunk) : Except Unit (List Nat) :=
  .ok (utf8_lossy c.data)

/-- `Display for ChunkType`: `String::from_utf8(self.data.clone()).unwrap()`;
`none` models the `unwrap` panic on invalid UTF-8. -/
def ChunkType.fmt (t : ChunkType) : Option (List Nat) := utf8_decode t.data

/-- The 42-byte payload `"This is where your secret message will be!"` used
by the repository's tests. -/
def test_msg : List Nat :=
  [84, 104, 105, 115, 32, 105, 115, 32, 119, 104, 101, 114, 101, 32, 121, 111,
   117, 114, 32, 115, 101, 99, 114, 101, 116, 32, 109, 101, 115, 115, 97, 103,
   101, 32, 119, 105, 108, 108, 32, 98, 101, 33]

/-! ## Helper lemmas -/

theorem length_u32_to_be_bytes (n : Nat) : (u32_to_be_bytes n).length = 4 := rfl

theorem u32_from_be_to_be (n : Nat) (h : n < 2 ^ 32) :
    u32_from_be_bytes (u32_to_be_bytes n) = n := by
  simp only [u32_from_be_bytes, u32_to_be_bytes, List.foldl]
  omega

theorem crc32_step_lt (crc : Nat) (h : crc < 2 ^ 32) : crc32_step crc < 2 ^ 32 := by
  unfold crc32_step
  split
  · exact Nat.xor_lt_two_pow (by omega) (by norm_num)
  · omega

theorem crc32_rounds_lt (n crc : Nat) (h : crc < 2 ^ 32) :
    crc32_rounds n crc < 2 ^ 32 := by
  induction n generalizing crc with
  | zero => exact h
  | succ n ih => exact ih _ (crc32_step_lt _ h)

theorem crc32_update_lt (crc b : Nat) (h : crc < 2 ^ 32) :
    crc32_update crc b < 2 ^ 32 :=
  crc32_rounds_lt _ _ (Nat.xor_lt_two_pow h (by omega))

theorem foldl_crc32_update_lt (l : List Nat) (a : Nat) (h : a < 2 ^ 32) :
    l.foldl crc32_update a < 2 ^ 32 := by
  induction l generalizing a with
  | nil => exact h
  | cons b l ih => exact ih _ (crc32_update_lt _ _ h)

theorem crc32_lt (l : List Nat) : crc32 l < 2 ^ 32 :=
  Nat.xor_lt_two_pow (foldl_crc32_update_lt l _ (by norm_num)) (by norm_num)

theorem from_slice_ok_iff (w : List Nat) (t : ChunkType) :
    ChunkType.from_slice w = .ok t ↔
      w.length = 4 ∧ w.all is_valid_byte = true ∧ t = ⟨w⟩ := by
  unfold ChunkType.from_slice
  by_cases h1 : w.length = 4
  · by_cases h2 : w.all is_valid_byte
    · simp [h1, h2, eq_comm]
    · simp [h1, h2]
  · simp [h1]

/-- Evaluation of `Chunk.try_from` on a buffer with the exact layout
`length(4B,BE) ++ tag ++ payload ++ trailing`, with a 4-byte tag field and a
4-byte trailing field. -/
theorem try_from_layout (w d e : List Nat) (hw : w.length = 4) (he : e.length = 4)
    (hd : d.length < 2 ^ 32) :
    Chunk.try_from (u32_to_be_bytes d.length ++ (w ++ (d ++ e))) =
      (match ChunkType.from_slice w with
       | .error _ => ParseResult.err .invalidTag
       | .ok typ =>
         if (Chunk.new typ d).crc ≠ u32_from_be_bytes e then .err .checksumMismatch
         else .ok (Chunk.new typ d)) := by
  have hA : (u32_to_be_bytes d.length).length = 4 := rfl
  have hval : (u32_to_be_bytes d.length ++ (w ++ (d ++ e))).length = d.length + 12 := by
    simp [List.length_append, hw, he]; omega
  unfold Chunk.try_from
  rw [if_neg (by omega)]
  simp only [List.take_left' hA, List.drop_left' hA, u32_from_be_to_be d.length hd]
  rw [if_neg (show ¬ ((w ++ (d ++ e)).length < d.length + 8) by
        simp only [List.length_append, hw, he]; omega)]
  simp only [List.take_left' hw, List.drop_left' hw, List.take_left, List.drop_left]
  cases hsw : ChunkType.from_slice w with
  | error err => rfl
  | ok typ => simp [he]

/-- Inversion of a successful `Chunk.try_from`: the input has exactly
`length + 12` bytes, the resulting fields are sliced from the input, the
stored checksum is the one computed over `tag ++ payload`, and it equals the
trailing 4-byte big-endian field of the input. -/
theorem try_from_ok_inversion (value : List Nat) (c : Chunk)
    (h : Chunk.try_from value = .ok c) :
    4 ≤ value.length ∧
    value.length = u32_from_be_bytes (value.take 4) + 12 ∧
    c.typ.data = (value.drop 4).take 4 ∧
    c.data = (value.drop 8).take (u32_from_be_bytes (value.take 4)) ∧
    c.crc = crc32 (c.typ.data ++ c.data) ∧
    u32_from_be_bytes (value.drop (value.length - 4)) = c.crc := by
  by_cases h4 : value.length < 4
  · simp [Chunk.try_from, h4] at h
  by_cases h8 : (value.drop 4).length < u32_from_be_bytes (value.take 4) + 8
  · simp only [Chunk.try_from, if_neg h4, if_pos h8] at h
    cases h
  cases hsw : ChunkType.from_slice ((value.drop 4).take 4) with
  | error err =>
    simp only [Chunk.try_from, if_neg h4, if_neg h8, hsw] at h
    cases h
  | ok typ =>
    by_cases hr :
        (((value.drop 4).drop 4).drop (u32_from_be_bytes (value.take 4))).length ≠ 4
    · simp only [Chunk.try_from, if_neg h4, if_neg h8, hsw, if_pos hr] at h
      cases h
    by_cases hm :
        (Chunk.new typ
            (((value.drop 4).drop 4).take (u32_from_be_bytes (value.take 4)))).crc ≠
          u32_from_be_bytes
            (((value.drop 4).drop 4).drop (u32_from_be_bytes (value.take 4)))
    · simp only [Chunk.try_from, if_neg h4, if_neg h8, hsw, if_neg hr, if_pos hm] at h
      cases h
    have hc : c = Chunk.new typ
        (((value.drop 4).drop 4).take (u32_from_be_bytes (value.take 4))) := by
      simp only [Chunk.try_from, if_neg h4, if_neg h8, hsw, if_neg hr, if_neg hm,
        ParseResult.ok.injEq] at h
      exact h.symm
    obtain ⟨hw4, hwall, htyp⟩ := (from_slice_ok_iff _ _).mp hsw
    push_neg at hr hm
    simp only [List.drop_drop, List.length_drop, Nat.reduceAdd] at hc hm hr h8
    push_neg at h8
    have hlen12 : value.length = u32_from_be_bytes (value.take 4) + 12 := by omega
    refine ⟨by omega, hlen12, ?_, ?_, ?_, ?_⟩
    · rw [hc, htyp]
      rfl
    · rw [hc]
      rfl
    · rw [hc]
      rfl
    · rw [hc]
      have h84 : value.length - 4 = 8 + u32_from_be_bytes (value.take 4) := by omega
      rw [h84]
      exact hm ▸ rfl

theorem is_valid_byte_iff (b : Nat) :
    is_valid_byte b = true ↔ (65 ≤ b ∧ b ≤ 90) ∨ (97 ≤ b ∧ b ≤ 122) := by
  simp [is_valid_byte]

theorem u32_from_be_bytes_lt (l : List Nat) (h : l.length ≤ 4) :
    u32_from_be_bytes l < 2 ^ 32 := by
  rcases l with _ | ⟨a, _ | ⟨b, _ | ⟨c, _ | ⟨d, l⟩⟩⟩⟩
  · simp [u32_from_be_bytes]
  · simp only [u32_from_be_bytes, List.foldl]; omega
  · simp only [u32_from_be_bytes, List.foldl]; omega
  · simp only [u32_from_be_bytes, List.foldl]; omega
  · cases l with
    | nil => simp only [u32_from_be_bytes, List.foldl]; omega
    | cons e l => simp at h

theorem xor_two_pow_ne (a i : Nat) : Nat.xor a (2 ^ i) ≠ a := by
  intro heq
  have heq' : a ^^^ 2 ^ i = a := heq
  have hbit := congrArg (fun x => x.testBit i) heq'
  simp only [Nat.testBit_xor, Nat.testBit_two_pow_self, Bool.bne_true] at hbit
  exact Bool.not_ne_self _ hbit

theorem utf8_run_ascii (l : List Nat) (h : ∀ b ∈ l, b ≤ 127) :
    utf8_run l 0 0 0 0 = some l := by
  induction l with
  | nil => rfl
  | cons b rest ih =>
    have hb : b ≤ 127 := h b (List.mem_cons_self b rest)
    rw [utf8_run, if_pos hb, ih (fun x hx => h x (List.mem_cons_of_mem b hx))]
    rfl

theorem utf8_decode_ascii (l : List Nat) (h : ∀ b ∈ l, b ≤ 127) :
    utf8_decode l = some l :=
  utf8_run_ascii l h

/-- The two `Truncated` rejection sites of `Chunk::try_from`, as an iff. -/
theorem try_from_truncated_iff (value : List Nat) :
    Chunk.try_from value = .err .truncated ↔
      value.length < 4 ∨
        value.length - 4 < u32_from_be_bytes (value.take 4) + 8 := by
  constructor
  · intro hres
    by_cases h4 : value.length < 4
    · exact Or.inl h4
    right
    by_cases h8 : (value.drop 4).length < u32_from_be_bytes (value.take 4) + 8
    · rw [List.length_drop] at h8
      exact h8
    exfalso
    cases hsw : ChunkType.from_slice ((value.drop 4).take 4) with
    | error err =>
      simp only [Chunk.try_from, if_neg h4, if_neg h8, hsw] at hres
      cases hres
    | ok typ =>
      by_cases hr :
          (((value.drop 4).drop 4).drop (u32_from_be_bytes (value.take 4))).length ≠ 4
      · simp only [Chunk.try_from, if_neg h4, if_neg h8, hsw, if_pos hr] at hres
        cases hres
      by_cases hm :
          (Chunk.new typ
              (((value.drop 4).drop 4).take (u32_from_be_bytes (value.take 4)))).crc ≠
            u32_from_be_bytes
              (((value.drop 4).drop 4).drop (u32_from_be_bytes (value.take 4)))
      · simp only [Chunk.try_from, if_neg h4, if_neg h8, hsw, if_neg hr, if_pos hm] at hres
        cases hres
      · simp only [Chunk.try_from, if_neg h4, if_neg h8, hsw, if_neg hr, if_neg hm] at hres
        cases hres
  · intro hor
    by_cases h4 : value.length < 4
    · simp [Chunk.try_from, h4]
    have h8 : (value.drop 4).length < u32_from_be_bytes (value.take 4) + 8 := by
      rw [List.length_drop]
      rcases hor with h | h
      · omega
      · exact h
    simp only [Chunk.try_from, if_neg h4, if_pos h8]

/-! ## Claim theorems -/

/-- C1: round-trip — for a validly constructed chunk `Chunk.new t d` (tag
accepted by the validating factory, payload length representable in the
4-byte length field), `serialize` reproduces the layout
`length(4B,BE) ++ tag(4B) ++ payload ++ checksum(4B,BE)`, and parsing the
serialized bytes returns a chunk equal to it field-for-field. -/
theorem serialize_parse_round_trip (w d : List Nat) (t : ChunkType)
    (ht : ChunkType.from_slice w = .ok t) (hd : d.length < 2 ^ 32) :
    Chunk.serialize (Chunk.new t d) =
      u32_to_be_bytes d.length ++ t.bytes ++ d ++
        u32_to_be_bytes (Chunk.new t d).crc ∧
    Chunk.try_from (Chunk.serialize (Chunk.new t d)) = .ok (Chunk.new t d) := by
  obtain ⟨hw4, hwall, rfl⟩ := (from_slice_ok_iff w t).mp ht
  have hlen : (Chunk.new (⟨w⟩ : ChunkType) d).length = d.length := by
    show d.length % 2 ^ 32 = d.length
    exact Nat.mod_eq_of_lt hd
  constructor
  · rw [Chunk.serialize, hlen]
    rfl
  · have hser : Chunk.serialize (Chunk.new ⟨w⟩ d) =
        u32_to_be_bytes d.length ++
          (w ++ (d ++ u32_to_be_bytes (crc32 (w ++ d)))) := by
      rw [Chunk.serialize, hlen, List.append_assoc, List.append_assoc]
      rfl
    rw [hser, try_from_layout w d (u32_to_be_bytes (crc32 (w ++ d))) hw4 rfl hd, ht]
    have hfb : u32_from_be_bytes (u32_to_be_bytes (crc32 (w ++ d))) = crc32 (w ++ d) :=
      u32_from_be_to_be _ (crc32_lt _)
    simp [Chunk.new, ChunkType.bytes, hfb]

/-- Witness for C1 at a concrete tag and payload. -/
theorem serialize_parse_round_trip_witness :
    Chunk.serialize (Chunk.new ⟨[82, 117, 83, 116]⟩ [1, 2, 3]) =
      u32_to_be_bytes ([1, 2, 3] : List Nat).length ++
        ChunkType.bytes ⟨[82, 117, 83, 116]⟩ ++ [1, 2, 3] ++
        u32_to_be_bytes (Chunk.new ⟨[82, 117, 83, 116]⟩ [1, 2, 3]).crc ∧
    Chunk.try_from (Chunk.serialize (Chunk.new ⟨[82, 117, 83, 116]⟩ [1, 2, 3])) =
      .ok (Chunk.new ⟨[82, 117, 83, 116]⟩ [1, 2, 3]) :=
  serialize_parse_round_trip [82, 117, 83, 116] [1, 2, 3] ⟨[82, 117, 83, 116]⟩
    rfl (by decide)

/-- C2: the checksum invariant — a chunk built by `new` stores exactly the
checksum computed over `tag.bytes() ++ payload` (computed, never passed in);
a chunk returned by a successful parse satisfies the same equation, and its
checksum equals the trailing 4-byte big-endian checksum field of the source
bytes (the comparison performed at parse time). -/
theorem checksum_invariant (t : ChunkType) (d value : List Nat) (c : Chunk)
    (h : Chunk.try_from value = .ok c) :
    (Chunk.new t d).crc = crc32 (t.bytes ++ d) ∧
    c.crc = crc32 (c.typ.bytes ++ c.data) ∧
    u32_from_be_bytes (value.drop (value.length - 4)) = c.crc := by
  obtain ⟨-, -, -, -, hcrc, htrail⟩ := try_from_ok_inversion value c h
  exact ⟨rfl, hcrc, htrail⟩

/-- Witness for C2 at a concrete construction and a concrete parse. -/
theorem checksum_invariant_witness :
    (Chunk.new ⟨[82, 117, 83, 116]⟩ [7]).crc =
      crc32 (ChunkType.bytes ⟨[82, 117, 83, 116]⟩ ++ [7]) ∧
    (Chunk.new ⟨[82, 117, 83, 116]⟩ []).crc =
      crc32 ((Chunk.new ⟨[82, 117, 83, 116]⟩ []).typ.bytes ++
        (Chunk.new ⟨[82, 117, 83, 116]⟩ []).data) ∧
    u32_from_be_bytes
        ((Chunk.serialize (Chunk.new ⟨[82, 117, 83, 116]⟩ [])).drop
          ((Chunk.serialize (Chunk.new ⟨[82, 117, 83, 116]⟩ [])).length - 4)) =
      (Chunk.new ⟨[82, 117, 83, 116]⟩ []).crc :=
  checksum_invariant ⟨[82, 117, 83, 116]⟩ [7]
    (Chunk.serialize (Chunk.new ⟨[82, 117, 83, 116]⟩ []))
    (Chunk.new ⟨[82, 117, 83, 116]⟩ []) (by decide)

/-- C3: non-totality of the parse — any buffer of at least 4 bytes whose
total length strictly exceeds `length + 12` and whose tag bytes validate
reaches the final `copy_from_slice` with more than 4 remaining bytes and
panics; and a parse returns normally only when the input length is exactly
`length + 12`. -/
theorem try_from_panics_on_oversized (value v : List Nat) (c : Chunk) (t : ChunkType)
    (h4 : 4 ≤ value.length)
    (hover : u32_from_be_bytes (value.take 4) + 12 < value.length)
    (htag : ChunkType.from_slice ((value.drop 4).take 4) = .ok t)
    (hok : Chunk.try_from v = .ok c) :
    Chunk.try_from value = .panic ∧
    v.length = u32_from_be_bytes (v.take 4) + 12 := by
  refine ⟨?_, (try_from_ok_inversion v c hok).2.1⟩
  have hnot4 : ¬ (value.length < 4) := by omega
  have hnot8 : ¬ ((value.drop 4).length < u32_from_be_bytes (value.take 4) + 8) := by
    rw [List.length_drop]
    omega
  have hrem :
      (((value.drop 4).drop 4).drop (u32_from_be_bytes (value.take 4))).length ≠ 4 := by
    simp only [List.drop_drop, List.length_drop, Nat.reduceAdd]
    omega
  simp only [Chunk.try_from, if_neg hnot4, if_neg hnot8, htag, if_pos hrem]

/-- Witness for C3: a 13-byte buffer declaring a 0-byte payload panics, and
a correctly serialized chunk that parses has exactly `length + 12` bytes. -/
theorem try_from_panics_on_oversized_witness :
    Chunk.try_from [0, 0, 0, 0, 82, 117, 83, 116, 0, 0, 0, 0, 0] = .panic ∧
    (Chunk.serialize (Chunk.new ⟨[82, 117, 83, 116]⟩ [])).length =
      u32_from_be_bytes
        ((Chunk.serialize (Chunk.new ⟨[82, 117, 83, 116]⟩ [])).take 4) + 12 :=
  try_from_panics_on_oversized [0, 0, 0, 0, 82, 117, 83, 116, 0, 0, 0, 0, 0]
    (Chunk.serialize (Chunk.new ⟨[82, 117, 83, 116]⟩ []))
    (Chunk.new ⟨[82, 117, 83, 116]⟩ []) ⟨[82, 117, 83, 116]⟩
    (by decide) (by decide) rfl (by decide)

/-- C4 counterexample: the 13-byte buffer `[0,0,0,0,82,117,83,116,0,0,0,0,0]`
passes the length check and the tag check, and the checksum computed over
`tag ++ payload` differs from its trailing 4-byte field, yet the parse does
not fail with `ChecksumMismatch` — it panics — so the claimed equivalence is
false on it. -/
theorem checksum_mismatch_iff_counterexample :
    (¬ ([0, 0, 0, 0, 82, 117, 83, 116, 0, 0, 0, 0, 0] : List Nat).length < 4) ∧
    (¬ (([0, 0, 0, 0, 82, 117, 83, 116, 0, 0, 0, 0, 0] : List Nat).length - 4 <
        u32_from_be_bytes
          (([0, 0, 0, 0, 82, 117, 83, 116, 0, 0, 0, 0, 0] : List Nat).take 4) + 8)) ∧
    (ChunkType.from_slice
        ((([0, 0, 0, 0, 82, 117, 83, 116, 0, 0, 0, 0, 0] : List Nat).drop 4).take 4)).isOk
      = true ∧
    crc32
        (((([0, 0, 0, 0, 82, 117, 83, 116, 0, 0, 0, 0, 0] : List Nat).drop 4).take 4) ++
          ((([0, 0, 0, 0, 82, 117, 83, 116, 0, 0, 0, 0, 0] : List Nat).drop 8).take
            (u32_from_be_bytes
              (([0, 0, 0, 0, 82, 117, 83, 116, 0, 0, 0, 0, 0] : List Nat).take 4)))) ≠
      u32_from_be_bytes
        (([0, 0, 0, 0, 82, 117, 83, 116, 0, 0, 0, 0, 0] : List Nat).drop
          (([0, 0, 0, 0, 82, 117, 83, 116, 0, 0, 0, 0, 0] : List Nat).length - 4)) ∧
    Chunk.try_from [0, 0, 0, 0, 82, 117, 83, 116, 0, 0, 0, 0, 0] ≠
      .err .checksumMismatch := by
  decide

/-- C4 (amended): restricted to buffers of exactly `length + 12` bytes that
pass the tag check, the parse fails with `ChecksumMismatch` iff the checksum
computed over `tag ++ payload` differs from the trailing 4-byte big-endian
checksum field (the check runs last, after tag validation and payload
extraction); and flipping any single bit of the checksum field of a
correctly serialized chunk makes the parse fail with `ChecksumMismatch`. -/
theorem checksum_mismatch_iff (value w d : List Nat) (t t' : ChunkType) (i : Nat)
    (hexact : value.length = u32_from_be_bytes (value.take 4) + 12)
    (htag : ChunkType.from_slice ((value.drop 4).take 4) = .ok t)
    (ht' : ChunkType.from_slice w = .ok t') (hd : d.length < 2 ^ 32) (hi : i < 32) :
    (Chunk.try_from value = .err .checksumMismatch ↔
      crc32 (((value.drop 4).take 4) ++
          ((value.drop 8).take (u32_from_be_bytes (value.take 4)))) ≠
        u32_from_be_bytes (value.drop (value.length - 4))) ∧
    Chunk.try_from
        (u32_to_be_bytes d.length ++
          (w ++ (d ++ u32_to_be_bytes (Nat.xor (crc32 (w ++ d)) (2 ^ i))))) =
      .err .checksumMismatch := by
  constructor
  · have hnot4 : ¬ (value.length < 4) := by omega
    have hnot8 : ¬ ((value.drop 4).length < u32_from_be_bytes (value.take 4) + 8) := by
      rw [List.length_drop]
      omega
    have hrem :
        ¬ ((((value.drop 4).drop 4).drop
            (u32_from_be_bytes (value.take 4))).length ≠ 4) := by
      simp only [List.drop_drop, List.length_drop, Nat.reduceAdd]
      omega
    obtain ⟨hw4, hwall, htyp⟩ := (from_slice_ok_iff _ _).mp htag
    have h84 : value.length - 4 = 8 + u32_from_be_bytes (value.take 4) := by omega
    simp only [Chunk.try_from, if_neg hnot4, if_neg hnot8, htag, if_neg hrem]
    rw [htyp, h84]
    simp only [List.drop_drop, Nat.reduceAdd]
    have hcrc : (Chunk.new (⟨(value.drop 4).take 4⟩ : ChunkType)
          ((value.drop 8).take (u32_from_be_bytes (value.take 4)))).crc =
        crc32 ((value.drop 4).take 4 ++
          (value.drop 8).take (u32_from_be_bytes (value.take 4))) := rfl
    rw [hcrc]
    by_cases hm :
        crc32 ((value.drop 4).take 4 ++
            (value.drop 8).take (u32_from_be_bytes (value.take 4))) ≠
          u32_from_be_bytes (value.drop (8 + u32_from_be_bytes (value.take 4)))
    · rw [if_pos hm]
      simp [hm]
    · rw [if_neg hm]
      simp [hm]
  · obtain ⟨hw4, hwall, rfl⟩ := (from_slice_ok_iff w t').mp ht'
    rw [try_from_layout w d (u32_to_be_bytes (Nat.xor (crc32 (w ++ d)) (2 ^ i)))
      hw4 rfl hd, ht']
    have hxlt : Nat.xor (crc32 (w ++ d)) (2 ^ i) < 2 ^ 32 :=
      Nat.xor_lt_two_pow (crc32_lt _) (Nat.pow_lt_pow_right (by norm_num) hi)
    have hne : (Chunk.new (⟨w⟩ : ChunkType) d).crc ≠
        u32_from_be_bytes (u32_to_be_bytes (Nat.xor (crc32 (w ++ d)) (2 ^ i))) := by
      rw [u32_from_be_to_be _ hxlt]
      exact fun heq => xor_two_pow_ne (crc32 (w ++ d)) i heq.symm
    show (if (Chunk.new (⟨w⟩ : ChunkType) d).crc ≠
          u32_from_be_bytes (u32_to_be_bytes (Nat.xor (crc32 (w ++ d)) (2 ^ i))) then
        ParseResult.err .checksumMismatch
      else ParseResult.ok (Chunk.new ⟨w⟩ d)) = .err .checksumMismatch
    rw [if_pos hne]

/-- Witness for the amended C4: a 12-byte buffer with a zeroed checksum
field, and a single-bit corruption (bit 0) of a serialized empty chunk. -/
theorem checksum_mismatch_iff_witness :
    (Chunk.try_from [0, 0, 0, 0, 82, 117, 83, 116, 0, 0, 0, 0] =
        .err .checksumMismatch ↔
      crc32 ((([0, 0, 0, 0, 82, 117, 83, 116, 0, 0, 0, 0] : List Nat).drop 4).take 4 ++
          (([0, 0, 0, 0, 82, 117, 83, 116, 0, 0, 0, 0] : List Nat).drop 8).take
            (u32_from_be_bytes
              (([0, 0, 0, 0, 82, 117, 83, 116, 0, 0, 0, 0] : List Nat).take 4))) ≠
        u32_from_be_bytes
          (([0, 0, 0, 0, 82, 117, 83, 116, 0, 0, 0, 0] : List Nat).drop
            (([0, 0, 0, 0, 82, 117, 83, 116, 0, 0, 0, 0] : List Nat).length - 4))) ∧
    Chunk.try_from
        (u32_to_be_bytes ([] : List Nat).length ++
          ([82, 117, 83, 116] ++
            (([] : List Nat) ++
              u32_to_be_bytes (Nat.xor (crc32 ([82, 117, 83, 116] ++ [])) (2 ^ 0))))) =
      .err .checksumMismatch :=
  checksum_mismatch_iff [0, 0, 0, 0, 82, 117, 83, 116, 0, 0, 0, 0]
    [82, 117, 83, 116] [] ⟨[82, 117, 83, 116]⟩ ⟨[82, 117, 83, 116]⟩ 0
    (by decide) rfl rfl (by decide) (by decide)

/-- C5: the parse fails with `Truncated` exactly when fewer than 4 bytes are
available for the length field or fewer than `length + 8` bytes remain after
it; consequently any truncation of a serialized chunk to fewer than
`length + 12` bytes fails with `Truncated`. -/
theorem truncated_iff (value w d : List Nat) (t : ChunkType) (k : Nat)
    (ht : ChunkType.from_slice w = .ok t) (hd : d.length < 2 ^ 32)
    (hk : k < d.length + 12) :
    (Chunk.try_from value = .err .truncated ↔
      value.length < 4 ∨
        value.length - 4 < u32_from_be_bytes (value.take 4) + 8) ∧
    Chunk.try_from ((Chunk.serialize (Chunk.new t d)).take k) = .err .truncated := by
  refine ⟨try_from_truncated_iff value, ?_⟩
  obtain ⟨hw4, hwall, rfl⟩ := (from_slice_ok_iff w t).mp ht
  have hlen : (Chunk.new (⟨w⟩ : ChunkType) d).length = d.length := by
    show d.length % 2 ^ 32 = d.length
    exact Nat.mod_eq_of_lt hd
  have hser : Chunk.serialize (Chunk.new ⟨w⟩ d) =
      u32_to_be_bytes d.length ++
        (w ++ (d ++ u32_to_be_bytes (crc32 (w ++ d)))) := by
    rw [Chunk.serialize, hlen, List.append_assoc, List.append_assoc]
    rfl
  have hslen : (Chunk.serialize (Chunk.new ⟨w⟩ d)).length = d.length + 12 := by
    rw [hser]
    simp only [List.length_append, length_u32_to_be_bytes, hw4]
    omega
  apply (try_from_truncated_iff _).mpr
  by_cases hk4 : k < 4
  · left
    rw [List.length_take]
    omega
  · right
    have htk : ((Chunk.serialize (Chunk.new ⟨w⟩ d)).take k).take 4 =
        u32_to_be_bytes d.length := by
      rw [List.take_take]
      have hmin : min 4 k = 4 := by omega
      rw [hmin, hser, List.take_left' (length_u32_to_be_bytes d.length)]
    rw [htk, u32_from_be_to_be _ hd, List.length_take, hslen]
    omega

/-- Witness for C5: a 2-byte buffer is `Truncated`, and so is a serialized
1-byte-payload chunk cut to its first 5 bytes. -/
theorem truncated_iff_witness :
    (Chunk.try_from [1, 2] = .err .truncated ↔
      ([1, 2] : List Nat).length < 4 ∨
        ([1, 2] : List Nat).length - 4 <
          u32_from_be_bytes (([1, 2] : List Nat).take 4) + 8) ∧
    Chunk.try_from ((Chunk.serialize (Chunk.new ⟨[82, 117, 83, 116]⟩ [9])).take 5) =
      .err .truncated :=
  truncated_iff [1, 2] [82, 117, 83, 116] [9] ⟨[82, 117, 83, 116]⟩ 5
    rfl (by decide) (by decide)

/-- C6: a successful parse slices its fields verbatim from the input — the
tag bytes are input bytes 4..8, the payload is bytes 8..8+length for the
big-endian length at bytes 0..4 — and `length()` is recomputed from the
payload (for any chunk whose payload fits the `u32` cast). -/
theorem parse_extracts_fields (value : List Nat) (c ch : Chunk)
    (h : Chunk.try_from value = .ok c) (hch : ch.data.length < 2 ^ 32) :
    c.typ.bytes = (value.drop 4).take 4 ∧
    c.data = (value.drop 8).take (u32_from_be_bytes (value.take 4)) ∧
    c.length = c.data.length ∧
    ch.length = ch.data.length := by
  obtain ⟨h4, hlen12, htyp, hdata, -, -⟩ := try_from_ok_inversion value c h
  have hu32 : u32_from_be_bytes (value.take 4) < 2 ^ 32 := by
    apply u32_from_be_bytes_lt
    rw [List.length_take]
    omega
  have hcl : c.data.length < 2 ^ 32 := by
    rw [hdata, List.length_take]
    omega
  refine ⟨htyp, hdata, ?_, ?_⟩
  · show c.data.length % 2 ^ 32 = c.data.length
    exact Nat.mod_eq_of_lt hcl
  · show ch.data.length % 2 ^ 32 = ch.data.length
    exact Nat.mod_eq_of_lt hch

/-- Witness for C6 at a concrete parse of a serialized chunk. -/
theorem parse_extracts_fields_witness :
    (Chunk.new ⟨[82, 117, 83, 116]⟩ [5, 6]).typ.bytes =
      ((Chunk.serialize (Chunk.new ⟨[82, 117, 83, 116]⟩ [5, 6])).drop 4).take 4 ∧
    (Chunk.new ⟨[82, 117, 83, 116]⟩ [5, 6]).data =
      ((Chunk.serialize (Chunk.new ⟨[82, 117, 83, 116]⟩ [5, 6])).drop 8).take
        (u32_from_be_bytes
          ((Chunk.serialize (Chunk.new ⟨[82, 117, 83, 116]⟩ [5, 6])).take 4)) ∧
    (Chunk.new ⟨[82, 117, 83, 116]⟩ [5, 6]).length =
      (Chunk.new ⟨[82, 117, 83, 116]⟩ [5, 6]).data.length ∧
    (Chunk.new ⟨[82, 117, 83, 116]⟩ [5, 6]).length =
      (Chunk.new ⟨[82, 117, 83, 116]⟩ [5, 6]).data.length :=
  parse_extracts_fields (Chunk.serialize (Chunk.new ⟨[82, 117, 83, 116]⟩ [5, 6]))
    (Chunk.new ⟨[82, 117, 83, 116]⟩ [5, 6]) (Chunk.new ⟨[82, 117, 83, 116]⟩ [5, 6])
    (by decide) (by decide)

/-- C7: the checksum of `new` is the CRC-32 variant with check value
`0xCBF43926` on ASCII `"123456789"`, computed over `tag.bytes() ++ payload`;
on tag `"RuSt"` and the 42-byte test payload it yields `2882656334`, and
`length()` yields `42`. -/
theorem crc32_concrete_values :
    crc32 [49, 50, 51, 52, 53, 54, 55, 56, 57] = 0xCBF43926 ∧
    (∀ t d, (Chunk.new t d).crc = crc32 (t.bytes ++ d)) ∧
    (Chunk.new ⟨[82, 117, 83, 116]⟩ test_msg).crc = 2882656334 ∧
    (Chunk.new ⟨[82, 117, 83, 116]⟩ test_msg).length = 42 :=
  ⟨by decide, fun t d => rfl, by decide, by decide⟩

/-- C8: TypeTag construction (from bytes or from a string, both delegating
to `from_slice`) succeeds iff the input is exactly 4 bytes, all in the ASCII
letter ranges `[65,90]` or `[97,122]`; wrong length yields `WrongLength`, an
invalid byte yields `InvalidByte` (e.g. on `"Ru1t"`), and every constructed
tag has only ASCII-letter bytes. -/
theorem from_slice_spec (data w : List Nat) (t : ChunkType)
    (hco : ChunkType.from_slice w = .ok t) :
    ((ChunkType.from_slice data).isOk = true ↔
      data.length = 4 ∧ ∀ b ∈ data, (65 ≤ b ∧ b ≤ 90) ∨ (97 ≤ b ∧ b ≤ 122)) ∧
    ChunkType.try_from_bytes data = ChunkType.from_slice data ∧
    ChunkType.from_str data = ChunkType.from_slice data ∧
    (data.length ≠ 4 → ChunkType.from_slice data = .error .wrongLength) ∧
    (data.length = 4 →
      (∃ b ∈ data, ¬ ((65 ≤ b ∧ b ≤ 90) ∨ (97 ≤ b ∧ b ≤ 122))) →
      ChunkType.from_slice data = .error .invalidByte) ∧
    ChunkType.from_slice [82, 117, 49, 116] = .error .invalidByte ∧
    ∀ b ∈ t.data, (65 ≤ b ∧ b ≤ 90) ∨ (97 ≤ b ∧ b ≤ 122) := by
  have hall : ∀ l : List Nat, l.all is_valid_byte = true ↔
      ∀ b ∈ l, (65 ≤ b ∧ b ≤ 90) ∨ (97 ≤ b ∧ b ≤ 122) := by
    intro l
    rw [List.all_eq_true]
    constructor
    · intro hl b hb
      exact (is_valid_byte_iff b).mp (hl b hb)
    · intro hl b hb
      exact (is_valid_byte_iff b).mpr (hl b hb)
  refine ⟨?_, rfl, rfl, ?_, ?_, rfl, ?_⟩
  · unfold ChunkType.from_slice
    by_cases h1 : data.length = 4
    · rw [if_neg (show ¬ data.length ≠ 4 from fun hc => hc h1)]
      by_cases h2 : data.all is_valid_byte
      · rw [if_pos h2]
        exact ⟨fun _ => ⟨h1, (hall data).mp h2⟩, fun _ => rfl⟩
      · rw [if_neg h2]
        constructor
        · intro hfalse
          cases hfalse
        · intro hrhs
          exact absurd ((hall data).mpr hrhs.2) h2
    · rw [if_pos h1]
      constructor
      · intro hfalse
        cases hfalse
      · intro hrhs
        exact absurd hrhs.1 h1
  · intro h1
    unfold ChunkType.from_slice
    rw [if_pos h1]
  · intro h1 hex
    unfold ChunkType.from_slice
    rw [if_neg (show ¬ data.length ≠ 4 from fun hc => hc h1)]
    have h2 : ¬ data.all is_valid_byte = true := by
      intro h2
      obtain ⟨b, hb, hnb⟩ := hex
      exact hnb ((hall data).mp h2 b hb)
    rw [if_neg h2]
  · obtain ⟨hw4, hwall, rfl⟩ := (from_slice_ok_iff w t).mp hco
    exact (hall w).mp hwall

/-- Witness for C8 at concrete inputs. -/
theorem from_slice_spec_witness :
    ((ChunkType.from_slice [82, 117, 83, 116]).isOk = true ↔
      ([82, 117, 83, 116] : List Nat).length = 4 ∧
        ∀ b ∈ ([82, 117, 83, 116] : List Nat),
          (65 ≤ b ∧ b ≤ 90) ∨ (97 ≤ b ∧ b ≤ 122)) ∧
    ChunkType.try_from_bytes [82, 117, 83, 116] =
      ChunkType.from_slice [82, 117, 83, 116] ∧
    ChunkType.from_str [82, 117, 83, 116] =
      ChunkType.from_slice [82, 117, 83, 116] ∧
    (([82, 117, 83, 116] : List Nat).length ≠ 4 →
      ChunkType.from_slice [82, 117, 83, 116] = .error .wrongLength) ∧
    (([82, 117, 83, 116] : List Nat).length = 4 →
      (∃ b ∈ ([82, 117, 83, 116] : List Nat),
        ¬ ((65 ≤ b ∧ b ≤ 90) ∨ (97 ≤ b ∧ b ≤ 122))) →
      ChunkType.from_slice [82, 117, 83, 116] = .error .invalidByte) ∧
    ChunkType.from_slice [82, 117, 49, 116] = .error .invalidByte ∧
    ∀ b ∈ (⟨[82, 117, 83, 116]⟩ : ChunkType).data,
      (65 ≤ b ∧ b ≤ 90) ∨ (97 ≤ b ∧ b ≤ 122) :=
  from_slice_spec [82, 117, 83, 116] [82, 117, 83, 116] ⟨[82, 117, 83, 116]⟩ rfl

/-- C9: the four classification predicates are pure single-byte case tests
(byte 0, 1, 2 uppercase; byte 3 lowercase), `is_valid` is the same test as
`is_reserved_bit_valid`, and on `"RuSt"` they evaluate to
`true, false, true, true`. -/
theorem classification_predicates (w : List Nat) (t : ChunkType)
    (_ht : ChunkType.from_slice w = .ok t) :
    (t.is_critical = true ↔ 65 ≤ t.data.getD 0 0 ∧ t.data.getD 0 0 ≤ 90) ∧
    (t.is_public = true ↔ 65 ≤ t.data.getD 1 0 ∧ t.data.getD 1 0 ≤ 90) ∧
    (t.is_reserved_bit_valid = true ↔
      65 ≤ t.data.getD 2 0 ∧ t.data.getD 2 0 ≤ 90) ∧
    t.is_valid = t.is_reserved_bit_valid ∧
    (t.is_safe_to_copy = true ↔ 97 ≤ t.data.getD 3 0 ∧ t.data.getD 3 0 ≤ 122) ∧
    ChunkType.is_critical ⟨[82, 117, 83, 116]⟩ = true ∧
    ChunkType.is_public ⟨[82, 117, 83, 116]⟩ = false ∧
    ChunkType.is_reserved_bit_valid ⟨[82, 117, 83, 116]⟩ = true ∧
    ChunkType.is_safe_to_copy ⟨[82, 117, 83, 116]⟩ = true := by
  refine ⟨?_, ?_, ?_, rfl, ?_, by decide, by decide, by decide, by decide⟩ <;>
    simp [ChunkType.is_critical, ChunkType.is_public,
      ChunkType.is_reserved_bit_valid, ChunkType.is_safe_to_copy,
      is_ascii_uppercase, is_ascii_lowercase]

/-- Witness for C9 at the tag `"RuSt"`. -/
theorem classification_predicates_witness :
    ((⟨[82, 117, 83, 116]⟩ : ChunkType).is_critical = true ↔
      65 ≤ (⟨[82, 117, 83, 116]⟩ : ChunkType).data.getD 0 0 ∧
        (⟨[82, 117, 83, 116]⟩ : ChunkType).data.getD 0 0 ≤ 90) ∧
    ((⟨[82, 117, 83, 116]⟩ : ChunkType).is_public = true ↔
      65 ≤ (⟨[82, 117, 83, 116]⟩ : ChunkType).data.getD 1 0 ∧
        (⟨[82, 117, 83, 116]⟩ : ChunkType).data.getD 1 0 ≤ 90) ∧
    ((⟨[82, 117, 83, 116]⟩ : ChunkType).is_reserved_bit_valid = true ↔
      65 ≤ (⟨[82, 117, 83, 116]⟩ : ChunkType).data.getD 2 0 ∧
        (⟨[82, 117, 83, 116]⟩ : ChunkType).data.getD 2 0 ≤ 90) ∧
    (⟨[82, 117, 83, 116]⟩ : ChunkType).is_valid =
      (⟨[82, 117, 83, 116]⟩ : ChunkType).is_reserved_bit_valid ∧
    ((⟨[82, 117, 83, 116]⟩ : ChunkType).is_safe_to_copy = true ↔
      97 ≤ (⟨[82, 117, 83, 116]⟩ : ChunkType).data.getD 3 0 ∧
        (⟨[82, 117, 83, 116]⟩ : ChunkType).data.getD 3 0 ≤ 122) ∧
    ChunkType.is_critical ⟨[82, 117, 83, 116]⟩ = true ∧
    ChunkType.is_public ⟨[82, 117, 83, 116]⟩ = false ∧
    ChunkType.is_reserved_bit_valid ⟨[82, 117, 83, 116]⟩ = true ∧
    ChunkType.is_safe_to_copy ⟨[82, 117, 83, 116]⟩ = true :=
  classification_predicates [82, 117, 83, 116] ⟨[82, 117, 83, 116]⟩ rfl

/-- C10: display and formatting never fail — `data_as_string` returns `Ok`
of the lossy decoding for every chunk (invalid sequences become `U+FFFD`,
demonstrated on `[72, 105, 255]`), and the textual rendering of any tag
constructed through the validating factory never hits the `unwrap` panic. -/
theorem display_never_fails (c : Chunk) (w : List Nat) (t : ChunkType)
    (ht : ChunkType.from_slice w = .ok t) :
    c.data_as_string = .ok (utf8_lossy c.data) ∧
    (ChunkType.fmt t).isSome = true ∧
    utf8_lossy [72, 105, 255] = [72, 105, 0xFFFD] := by
  refine ⟨rfl, ?_, by decide⟩
  obtain ⟨hw4, hwall, rfl⟩ := (from_slice_ok_iff w t).mp ht
  have hascii : ∀ b ∈ w, b ≤ 127 := by
    intro b hb
    have hv := (is_valid_byte_iff b).mp (List.all_eq_true.mp hwall b hb)
    omega
  show (utf8_decode w).isSome = true
  rw [utf8_decode_ascii w hascii]
  rfl

/-- Witness for C10 at the tag `"RuSt"` and a non-UTF-8 payload. -/
theorem display_never_fails_witness :
    (Chunk.new ⟨[82, 117, 83, 116]⟩ [0xFF, 65]).data_as_string =
      .ok (utf8_lossy (Chunk.new ⟨[82, 117, 83, 116]⟩ [0xFF, 65]).data) ∧
    (ChunkType.fmt ⟨[82, 117, 83, 116]⟩).isSome = true ∧
    utf8_lossy [72, 105, 255] = [72, 105, 0xFFFD] :=
  display_never_fails (Chunk.new ⟨[82, 117, 83, 116]⟩ [0xFF, 65])
    [82, 117, 83, 116] ⟨[82, 117, 83, 116]⟩ rfl

end Pngme
